import Mathlib

/-!
Verification of the Shopify extraction pipeline
(src/shopify_extras.py and src/shopify_dlt_pipeline.py).

Each definition below is a shallow embedding of a concrete fragment of the
Python source; comments point at the file and line numbers it came from.
Theorems settle the frozen claims about the specification.
-/

namespace Shopify

/-! ## Python string primitives

These model the exact semantics of the Python string methods the source
uses for URL surgery and Link-header parsing. -/

/-- Python `s.strip(chars)`: removes from both ends every character that is a
member of the character SET `chars` (the argument is a set of characters,
not a substring — this is the semantics that matters for C9). -/
def pyStrip (s : String) (chars : String) : String :=
  let cs := chars.toList
  let t := s.toList.dropWhile (fun c => cs.contains c)
  String.mk (t.reverse.dropWhile (fun c => cs.contains c)).reverse

/-- Python `needle in hay` for strings: substring containment. -/
def pyContains (hay needle : String) : Bool :=
  let h := hay.toList
  let n := needle.toList
  (List.range (h.length + 1)).any (fun i => n.isPrefixOf (List.drop i h))

/-- Python `s.split(";")[0]`: the text before the first semicolon
(the whole string when there is none). -/
def splitFirst (s : String) : String :=
  String.mk (s.toList.takeWhile (fun c => c != ';'))

/-! ## Link-header pagination strategy

shopify_extras.py, load_pages_metafields lines 262-266 and
load_products_metafields lines 433-437 (both copies are identical):

    link_header = resp.headers.get("Link", "")
    next_url = None
    if 'rel="next"' in link_header:
        next_url = link_header.split(";")[0].strip("<>")
    pages_url = next_url

Returns `some url` when pagination continues (has_more = true with that
token) and `none` when it stops. -/
def linkHeaderNext (linkHeader : String) : Option String :=
  if pyContains linkHeader "rel=\"next\"" then
    some (pyStrip (splitFirst linkHeader) "<>")
  else
    none

/-- The header from the specification, next entry first. -/
def c1Header : String :=
  "<https://x/y?page=2>; rel=\"next\", <https://x/y?page=1>; rel=\"prev\""

/-- The same two entries with the prev entry first. -/
def c1HeaderRev : String :=
  "<https://x/y?page=1>; rel=\"prev\", <https://x/y?page=2>; rel=\"next\""

/-- A header carrying only a prev entry, no rel next entry. -/
def c1HeaderNoNext : String := "<https://x/y?page=1>; rel=\"prev\""

/-! ## Protocol stripping (C9)

shopify_extras.py line 15 (load_inventory_levels_gql):

    shop_url.strip('https://').strip('http://').strip('/')

versus the correct exact prefix removal the spec calls for. -/

/-- The character-trimming protocol strip of load_inventory_levels_gql
(shopify_extras.py line 15). -/
def stripProtocolInventory (shopUrl : String) : String :=
  pyStrip (pyStrip (pyStrip shopUrl "https://") "http://") "/"

/-- Modelled from the spec: correct exact substring removal of a literal
protocol marker from the front of the URL (the behavior §9 says a
reimplementation should use), for comparison with the character trim. -/
def exactProtocolRemoval (s : String) : String :=
  if "https://".toList.isPrefixOf s.toList then String.mk (s.toList.drop 8)
  else if "http://".toList.isPrefixOf s.toList then String.mk (s.toList.drop 7)
  else s

/-! ## Theorems for C1 and C9 -/

/-- C1, counterexample: with the prev entry first and the next entry second,
the strategy extracts the prev URL, not the rel next URL — so the extraction
is NOT independent of the order of the entries, contrary to the claim. -/
theorem link_header_order_counterexample :
    linkHeaderNext c1HeaderRev = some "https://x/y?page=1"
    ∧ some "https://x/y?page=1" ≠ some "https://x/y?page=2" := by
  exact ⟨by decide, by decide⟩

/-- C1, amended: when the header has no rel next entry the strategy yields no
token (has_more = false); when it has one anywhere, the token is the URL of
the FIRST entry of the header (text before the first semicolon, trimmed of
angle brackets) — which equals the rel next URL exactly when the next entry
comes first, as in the specification example. -/
theorem link_header_first_entry (h : String) :
    (pyContains h "rel=\"next\"" = false → linkHeaderNext h = none)
    ∧ (pyContains h "rel=\"next\"" = true →
        linkHeaderNext h = some (pyStrip (splitFirst h) "<>"))
    ∧ linkHeaderNext c1Header = some "https://x/y?page=2" := by
  refine ⟨fun hn => ?_, fun hy => ?_, by decide⟩
  · simp [linkHeaderNext, hn]
  · simp [linkHeaderNext, hy]

/-- C1, witness for the amended theorem at concrete headers. -/
theorem link_header_first_entry_witness :
    linkHeaderNext c1HeaderNoNext = none
    ∧ linkHeaderNext c1Header = some "https://x/y?page=2" :=
  ⟨(link_header_first_entry c1HeaderNoNext).1 (by decide),
   (link_header_first_entry c1Header).2.2⟩

/-- C9: the inventory loader strips the protocol by character-set trimming,
so for a URL with a literal https prefix the computed host drops the leading
characters of the host that happen to lie in the trimmed set (here the s and
h of shop), and differs from correct exact prefix removal. -/
theorem strip_protocol_char_trim :
    stripProtocolInventory "https://shop.example.com" = "op.example.com"
    ∧ exactProtocolRemoval "https://shop.example.com" = "shop.example.com"
    ∧ stripProtocolInventory "https://shop.example.com"
        ≠ exactProtocolRemoval "https://shop.example.com" := by
  exact ⟨by decide, by decide, by decide⟩

/-! ## GraphQL cursor pagination

The response environment is modelled as the list of successive response
bodies the server would return for the successive requests, consumed in
order; edges are modelled by their node records (order preserved). -/

/-- The pageInfo object of a GraphQL connection. -/
structure PageInfo where
  hasNextPage : Bool
  endCursor : Option String
deriving DecidableEq

/-- One GraphQL response body: the edges of the root connection and the
pageInfo object, `none` when the pageInfo key is absent (malformed). -/
structure GqlResponse (α : Type) where
  edges : List α
  pageInfo : Option PageInfo
deriving DecidableEq

/-- Outcome of driving a generator resource: records yielded in order,
number of outbound calls issued, and whether it finished without raising. -/
structure RunOut (α : Type) where
  records : List α
  calls : Nat
  ok : Bool
deriving DecidableEq

/-- shopify_extras.py, pages_resource lines 212-238 (blogs_resource lines
337-355 and articles_resource are the identical loop):

    while True:
        resp = requests.post(...)            # one call, consumes the head
        data = resp.json()["data"]["pages"]
        for edge in data["edges"]:
            yield edge["node"]               # records yielded before pageInfo is read
        if not data["pageInfo"]["hasNextPage"]:   # KeyError when pageInfo missing
            break
        after = data["pageInfo"]["endCursor"]

A missing pageInfo raises AFTER the edges of that page were yielded;
an exhausted environment (the loop asks for a page the list does not have)
is reported as a failed run with no further records. -/
def pagesRun {α : Type} : List (GqlResponse α) → RunOut α
  | [] => ⟨[], 0, false⟩
  | r :: rest =>
    match r.pageInfo with
    | none => ⟨r.edges, 1, false⟩
    | some pi =>
      if pi.hasNextPage then
        let o := pagesRun rest
        ⟨r.edges ++ o.records, o.calls + 1, o.ok⟩
      else ⟨r.edges, 1, true⟩

/-- A well-formed finite page sequence: every response carries a pageInfo,
every page before the last announces a next page, and the last page does
not (the shape of claim C5). -/
def wfPages {α : Type} : List (GqlResponse α) → Bool
  | [] => false
  | [r] =>
    match r.pageInfo with
    | some pi => !pi.hasNextPage
    | none => false
  | r :: rest =>
    (match r.pageInfo with
     | some pi => pi.hasNextPage
     | none => false) && wfPages rest

/-- The inventoryLevels connection of one response of
load_inventory_levels_gql: edges (non-null nodes, already enriched) and an
optional pageInfo. -/
structure InvLevels (α : Type) where
  edges : List α
  pageInfo : Option PageInfo
deriving DecidableEq

/-- shopify_extras.py, load_inventory_levels_gql lines 92-133, the while
loop for one location. The environment list holds, per call, `none` when
data.location or location.inventoryLevels is missing/null (lines 102-110,
loop breaks) and `some inv` otherwise:

    edges = inv_data.get("edges", [])
    if not edges: break                          # lines 112-114
    ... pipeline.run(dlt.resource(records, ...)) # records forwarded per page
    page_info = inv_data.get("pageInfo", {})     # lines 130-132: defaults
    has_next_page = page_info.get("hasNextPage", False)

Returns the records forwarded to the sink for that location. -/
def invLoop {α : Type} : List (Option (InvLevels α)) → List α
  | [] => []
  | none :: _ => []
  | some inv :: rest =>
    if inv.edges.isEmpty then []
    else
      let pi := inv.pageInfo.getD ⟨false, none⟩
      if pi.hasNextPage then inv.edges ++ invLoop rest
      else inv.edges

/-- Unfolding step of pagesRun on a page that announces a next page. -/
theorem pagesRun_cons_next {α : Type} (r : GqlResponse α) (pi : PageInfo)
    (rest : List (GqlResponse α)) (hpi : r.pageInfo = some pi)
    (hn : pi.hasNextPage = true) :
    pagesRun (r :: rest)
      = ⟨r.edges ++ (pagesRun rest).records, (pagesRun rest).calls + 1,
         (pagesRun rest).ok⟩ := by
  simp [pagesRun, hpi, hn]

/-! ## Theorems for C5, C2, C3 -/

/-- C5: for a well-formed finite page sequence whose last page has
has_more = false, the fetcher yields exactly the concatenation of all pages
in server order, issues exactly one outbound call per page (hence none after
the terminating page), and terminates normally. -/
theorem pagesRun_yields_concat {α : Type} (pages : List (GqlResponse α))
    (h : wfPages pages = true) :
    pagesRun pages = ⟨(pages.map GqlResponse.edges).flatten, pages.length, true⟩ := by
  induction pages with
  | nil => simp [wfPages] at h
  | cons r rest ih =>
    cases rest with
    | nil =>
      cases hpi : r.pageInfo with
      | none => simp [wfPages, hpi] at h
      | some pi =>
        simp only [wfPages, hpi, Bool.not_eq_true'] at h
        simp [pagesRun, hpi, h]
    | cons r2 rest2 =>
      cases hpi : r.pageInfo with
      | none => simp [wfPages, hpi] at h
      | some pi =>
        simp only [wfPages, hpi, Bool.and_eq_true] at h
        rw [pagesRun_cons_next r pi (r2 :: rest2) hpi h.1, ih h.2]
        simp [List.length_cons]

/-- Concrete two-page environment for the C5 witness. -/
def c5Pages : List (GqlResponse Nat) :=
  [⟨[1, 2], some ⟨true, some "a"⟩⟩, ⟨[3], some ⟨false, none⟩⟩]

/-- C5, witness at a concrete two-page sequence. -/
theorem pagesRun_yields_concat_witness :
    wfPages c5Pages = true
    ∧ pagesRun c5Pages
        = ⟨(c5Pages.map GqlResponse.edges).flatten, c5Pages.length, true⟩ :=
  ⟨by decide, pagesRun_yields_concat c5Pages (by decide)⟩

/-- Concrete environment for the C2 counterexample: an empty page that
announces a next page, followed by a final page holding record 5. -/
def c2InvPages : List (Option (InvLevels Nat)) :=
  [some ⟨[], some ⟨true, some "c"⟩⟩, some ⟨[5], some ⟨false, none⟩⟩]

/-- C2, counterexample: in load_inventory_levels_gql an empty edges list
with hasNextPage = true terminates the location loop (lines 112-114), so the
next page and its record 5 are never fetched — contradicting the claim that
every cursor fetch continues past an empty-but-more page. -/
theorem empty_more_page_counterexample :
    invLoop c2InvPages = [] ∧ ([] : List Nat) ≠ [5] := by
  exact ⟨by decide, by decide⟩

/-- C2, amended: in the generator resources (pages, blogs, articles) an
empty page with has_more = true does not terminate the sequence — the
following pages are still fetched and their records yielded; but in
load_inventory_levels_gql an empty edges list ends the location loop
unconditionally, whatever pageInfo says. -/
theorem empty_more_page_behavior {α : Type} :
    (∀ (c : Option String) (rest : List (GqlResponse α)),
      pagesRun (⟨[], some ⟨true, c⟩⟩ :: rest)
        = ⟨(pagesRun rest).records, (pagesRun rest).calls + 1, (pagesRun rest).ok⟩)
    ∧ ∀ (pi : Option PageInfo) (rest : List (Option (InvLevels α))),
        invLoop (some ⟨[], pi⟩ :: rest) = [] := by
  constructor
  · intro c rest
    simp [pagesRun]
  · intro pi rest
    simp [invLoop]

/-- Concrete environment for the C3 counterexample: a page holding record 3
whose pageInfo key is missing. -/
def c3InvPage : List (Option (InvLevels Nat)) := [some ⟨[3], none⟩]

/-- C3, counterexample: in load_inventory_levels_gql a response missing the
pageInfo key does not fail — the page records are forwarded to the sink
(record 3, not zero records) and the loop ends exactly as it would on a
normal final page, i.e. the condition is treated as normal end-of-stream. -/
theorem missing_pageinfo_counterexample :
    invLoop c3InvPage = [3]
    ∧ ([3] : List Nat) ≠ []
    ∧ invLoop c3InvPage = invLoop [some ⟨[3], some ⟨false, none⟩⟩] := by
  exact ⟨by decide, by decide, by decide⟩

/-- C3, amended: in pages_resource a missing pageInfo key raises immediately
(one call, no retry, run not ok) but the malformed page edges have already
been yielded by the generator; in load_inventory_levels_gql a missing
pageInfo is read through defaults as hasNextPage = false, so the page
records are forwarded and pagination ends as a normal end-of-stream with no
failure surfaced. -/
theorem missing_pageinfo_behavior {α : Type} :
    (∀ (edges : List α) (rest : List (GqlResponse α)),
      pagesRun (⟨edges, none⟩ :: rest) = ⟨edges, 1, false⟩)
    ∧ ∀ (recs : List α) (rest : List (Option (InvLevels α))),
        invLoop (some ⟨recs, none⟩ :: rest) = recs := by
  constructor
  · intro edges rest
    simp [pagesRun]
  · intro recs rest
    cases recs with
    | nil => simp [invLoop]
    | cons a l => simp [invLoop, Option.getD]

/-! ## Fan-out over parent identifiers (metafield loaders)

One per-parent fetch is modelled by the outcome the server would give to
the first request for that parent, plus the outcome a hypothetical retry
of the same request would give (the source never issues that retry, which
is exactly what C6 is about). -/

/-- The two kinds of requests.exceptions.RequestException the Python code
can see: a transport failure (connection error, timeout) or an HTTP 4xx/5xx
raised by raise_for_status. Both are subclasses of RequestException. -/
inductive ReqError where
  | transport
  | httpStatus (code : Nat)
deriving DecidableEq

deriving instance DecidableEq for Except

/-- Environment for one parent in a fan-out loop: its id, the outcome of
the single metafields request the code issues, and the outcome a retry of
that request would have (never consulted by the source). -/
structure ParentFetch (α : Type) where
  pid : Nat
  attempt1 : Except ReqError (List α)
  retryAttempt : Except ReqError (List α)
deriving DecidableEq

/-- Outcome of a fan-out run: tagged records forwarded in order, number of
parents attempted, number of per-parent failures recorded, number of
outbound calls issued, and whether the resource finished without raising. -/
structure FanOut (α : Type) where
  records : List (Nat × α)
  attempted : Nat
  failures : Nat
  calls : Nat
  ok : Bool
deriving DecidableEq

/-- shopify_extras.py, products_metafields_resource lines 451-478:

    for i, product_id in enumerate(product_ids, start=1):
        try:
            resp = requests.get(url, headers=headers, timeout=20)
            resp.raise_for_status()
            metafields = resp.json().get("metafields", [])
            for mf in metafields:
                mf["product_id"] = product_id
                yield mf
        except requests.exceptions.RequestException as re:
            logging.warning(...); time.sleep(1); continue

Exactly one request per parent; any RequestException (transport or HTTP
status) is caught, counted here as one failure, and the loop continues. -/
def productsMetafieldsRun {α : Type} : List (ParentFetch α) → FanOut α
  | [] => ⟨[], 0, 0, 0, true⟩
  | p :: rest =>
    let r := productsMetafieldsRun rest
    match p.attempt1 with
    | .ok mfs =>
      ⟨mfs.map (fun mf => (p.pid, mf)) ++ r.records,
       r.attempted + 1, r.failures, r.calls + 1, r.ok⟩
    | .error _ =>
      ⟨r.records, r.attempted + 1, r.failures + 1, r.calls + 1, r.ok⟩

/-- shopify_extras.py, pages_metafields_resource lines 268-276:

    for pid in page_ids:
        resp = requests.get(url, headers=headers)
        resp.raise_for_status()
        for mf in resp.json()["metafields"]:
            mf["page_id"] = pid
            yield mf

No try/except around the per-parent fetch: the first failing parent raises
out of the generator and the remaining parents are never attempted. -/
def pagesMetafieldsRun {α : Type} : List (ParentFetch α) → FanOut α
  | [] => ⟨[], 0, 0, 0, true⟩
  | p :: rest =>
    match p.attempt1 with
    | .ok mfs =>
      let r := pagesMetafieldsRun rest
      ⟨mfs.map (fun mf => (p.pid, mf)) ++ r.records,
       r.attempted + 1, r.failures, r.calls + 1, r.ok⟩
    | .error _ => ⟨[], 1, 1, 1, false⟩

/-- The records a single parent attempt contributes, tagged with the
parent id. -/
def attemptRecords {α : Type} (pid : Nat) : Except ReqError (List α) → List (Nat × α)
  | .ok mfs => mfs.map (fun mf => (pid, mf))
  | .error _ => []

/-- Whether a single parent attempt failed. -/
def attemptFailed {α : Type} : Except ReqError (List α) → Bool
  | .ok _ => false
  | .error _ => true

/-! ## Theorems for C4 and C6 -/

/-- Concrete fan-out environment for the C4 counterexample: three parents,
the second failing with an HTTP 500. -/
def c4Parents : List (ParentFetch Nat) :=
  [⟨1, .ok [10], .ok []⟩, ⟨2, .error (.httpStatus 500), .ok []⟩, ⟨3, .ok [30], .ok []⟩]

/-- C4, counterexample: in pages_metafields_resource the failure of parent 2
aborts the loop — only 2 of the 3 parents are attempted and the records of
the succeeding parent 3 are never forwarded, contrary to the claim that a
single parent failure never aborts the remaining parents. -/
theorem fan_out_abort_counterexample :
    pagesMetafieldsRun c4Parents = ⟨[(1, 10)], 2, 1, 2, false⟩
    ∧ ¬ (3, 30) ∈ (pagesMetafieldsRun c4Parents).records
    ∧ (pagesMetafieldsRun c4Parents).attempted ≠ c4Parents.length := by
  exact ⟨by decide, by decide, by decide⟩

/-- C4, amended: products_metafields_resource isolates per-parent failures —
for any parents it attempts them all, forwards exactly the succeeding
parents' tagged records in order, records one failure per failing parent and
never raises; pages_metafields_resource does not — the first failing parent
ends the run and the parents after it are never attempted. -/
theorem fan_out_isolation {α : Type} (parents : List (ParentFetch α)) :
    (productsMetafieldsRun parents).records
        = (parents.map (fun p => attemptRecords p.pid p.attempt1)).flatten
    ∧ (productsMetafieldsRun parents).attempted = parents.length
    ∧ (productsMetafieldsRun parents).failures
        = (parents.filter (fun p => attemptFailed p.attempt1)).length
    ∧ (productsMetafieldsRun parents).ok = true
    ∧ ∀ (pid1 pid2 : Nat) (mfs : List α) (e : ReqError)
        (a2 a2b : Except ReqError (List α)) (post : List (ParentFetch α)),
        pagesMetafieldsRun (⟨pid1, .ok mfs, a2⟩ :: ⟨pid2, .error e, a2b⟩ :: post)
          = ⟨mfs.map (fun mf => (pid1, mf)), 2, 1, 2, false⟩ := by
  refine ⟨?_, ?_, ?_, ?_, ?_⟩
  · induction parents with
    | nil => simp [productsMetafieldsRun]
    | cons p rest ih =>
      cases hp : p.attempt1 with
      | ok mfs => simp [productsMetafieldsRun, hp, ih, attemptRecords]
      | error e => simp [productsMetafieldsRun, hp, ih, attemptRecords]
  · induction parents with
    | nil => simp [productsMetafieldsRun]
    | cons p rest ih =>
      cases hp : p.attempt1 with
      | ok mfs => simp [productsMetafieldsRun, hp, ih]
      | error e => simp [productsMetafieldsRun, hp, ih]
  · induction parents with
    | nil => simp [productsMetafieldsRun]
    | cons p rest ih =>
      cases hp : p.attempt1 with
      | ok mfs => simp [productsMetafieldsRun, List.filter, hp, ih, attemptFailed]
      | error e => simp [productsMetafieldsRun, List.filter, hp, ih, attemptFailed]
  · induction parents with
    | nil => simp [productsMetafieldsRun]
    | cons p rest ih =>
      cases hp : p.attempt1 with
      | ok mfs => simp [productsMetafieldsRun, hp, ih]
      | error e => simp [productsMetafieldsRun, hp, ih]
  · intro pid1 pid2 mfs e a2 a2b post
    simp [pagesMetafieldsRun]

/-- Concrete parent for the C6 counterexample: its first request fails with
a transport error, a retry of the same request would return record 9. -/
def c6Parent : ParentFetch Nat := ⟨7, .error .transport, .ok [9]⟩

/-- C6, counterexample: on a transport error products_metafields_resource
issues exactly one call for the parent (the current request is never
retried, although a retry would have succeeded and yielded record 9),
records the failure, forwards nothing for that parent and does not
propagate — contrary to the claimed retry-once-then-propagate policy. -/
theorem no_retry_counterexample :
    productsMetafieldsRun [c6Parent] = ⟨[], 1, 1, 1, true⟩
    ∧ (productsMetafieldsRun [c6Parent]).calls ≠ 2
    ∧ (productsMetafieldsRun [c6Parent]).records ≠ [(7, 9)] := by
  exact ⟨by decide, by decide, by decide⟩

/-- C6, amended: every parent gets exactly one outbound call — a request
error (transport or HTTP status alike) is caught, a fixed 1 second sleep
follows, and the loop moves to the next parent with one more recorded
failure; the failed request is never retried (the retry outcome is never
consulted) and the error never propagates as a resource failure. -/
theorem request_error_skips_parent {α : Type} (parents : List (ParentFetch α)) :
    (productsMetafieldsRun parents).calls = parents.length
    ∧ (productsMetafieldsRun parents).ok = true
    ∧ ∀ (pid : Nat) (e : ReqError) (a2 : Except ReqError (List α)),
        productsMetafieldsRun (⟨pid, .error e, a2⟩ :: parents)
          = ⟨(productsMetafieldsRun parents).records,
             (productsMetafieldsRun parents).attempted + 1,
             (productsMetafieldsRun parents).failures + 1,
             (productsMetafieldsRun parents).calls + 1,
             (productsMetafieldsRun parents).ok⟩ := by
  refine ⟨?_, ?_, ?_⟩
  · induction parents with
    | nil => simp [productsMetafieldsRun]
    | cons p rest ih =>
      cases hp : p.attempt1 with
      | ok mfs => simp [productsMetafieldsRun, hp, ih]
      | error e => simp [productsMetafieldsRun, hp, ih]
  · induction parents with
    | nil => simp [productsMetafieldsRun]
    | cons p rest ih =>
      cases hp : p.attempt1 with
      | ok mfs => simp [productsMetafieldsRun, hp, ih]
      | error e => simp [productsMetafieldsRun, hp, ih]
  · intro pid e a2
    simp [productsMetafieldsRun]

/-! ## Watermark backfill scheduler

shopify_dlt_pipeline.py, incremental_load_with_backloading lines 92-130.
Dates are modelled as natural numbers counting days (the code uses pendulum
datetimes and add(weeks=1), i.e. plus 7 days); in the concrete instances a
date 2025-10-d is encoded as the day number d. -/

/-- Fuel-based unfolding of the window loop (lines 104-107):

    while current_start_date < max_end_date:
        end_date = min(current_start_date.add(weeks=1), max_end_date)
        ranges.append((current_start_date, end_date))
        current_start_date = end_date

Each iteration advances the start by at least one day, so `now - start`
units of fuel always suffice. -/
def backfillRangesAux : Nat → Nat → Nat → List (Nat × Nat)
  | 0, _, _ => []
  | fuel + 1, start, now =>
    if start < now then
      (start, min (start + 7) now) :: backfillRangesAux fuel (min (start + 7) now) now
    else []

/-- The list of weekly backfill windows for `[start, now)`. -/
def backfillRanges (start now : Nat) : List (Nat × Nat) :=
  backfillRangesAux (now - start) start now

/-- Invariant of the window loop: the windows chain from `s` up to `n`,
each one ending at `min (start + 7) n`. -/
def chainFrom (s n : Nat) : List (Nat × Nat) → Prop
  | [] => n ≤ s
  | w :: rest => w.1 = s ∧ w.2 = min (s + 7) n ∧ s < n ∧ chainFrom w.2 n rest

theorem backfillRangesAux_chain (fuel : Nat) :
    ∀ s n, n - s ≤ fuel → chainFrom s n (backfillRangesAux fuel s n) := by
  induction fuel with
  | zero =>
    intro s n h
    simp only [backfillRangesAux, chainFrom]
    omega
  | succ fuel ih =>
    intro s n h
    by_cases hs : s < n
    · simp only [backfillRangesAux, if_pos hs, chainFrom]
      refine ⟨?_, ?_, hs, ih (min (s + 7) n) n (by omega)⟩ <;> simp
    · simp only [backfillRangesAux, if_neg hs, chainFrom]
      omega

theorem chainFrom_mem_bounds :
    ∀ (l : List (Nat × Nat)) (s n : Nat), chainFrom s n l →
      ∀ w ∈ l, s ≤ w.1 ∧ w.1 < w.2 ∧ w.2 ≤ n ∧ w.2 = min (w.1 + 7) n := by
  intro l
  induction l with
  | nil =>
    intro s n h w hw
    simp at hw
  | cons a rest ih =>
    intro s n h w hw
    simp only [chainFrom] at h
    obtain ⟨h1, h2, h3, h4⟩ := h
    rcases List.mem_cons.mp hw with rfl | hw2
    · refine ⟨?_, ?_, ?_, ?_⟩ <;> omega
    · have hb := ih a.2 n h4 w hw2
      exact ⟨by omega, hb.2.1, hb.2.2.1, hb.2.2.2⟩

theorem chainFrom_coverage :
    ∀ (l : List (Nat × Nat)) (s n : Nat), chainFrom s n l →
      ∀ t, (∃ w, w ∈ l ∧ w.1 ≤ t ∧ t < w.2) ↔ (s ≤ t ∧ t < n) := by
  intro l
  induction l with
  | nil =>
    intro s n h t
    simp only [chainFrom] at h
    constructor
    · rintro ⟨w, hw, _⟩
      simp at hw
    · intro ht
      omega
  | cons a rest ih =>
    intro s n h t
    simp only [chainFrom] at h
    obtain ⟨h1, h2, h3, h4⟩ := h
    have hcov := ih a.2 n h4 t
    constructor
    · rintro ⟨w, hw, hw1, hw2⟩
      rcases List.mem_cons.mp hw with rfl | hw'
      · omega
      · have := hcov.mp ⟨w, hw', hw1, hw2⟩
        omega
    · intro ht
      by_cases hta : t < a.2
      · exact ⟨a, List.mem_cons_self a rest, by omega, hta⟩
      · obtain ⟨w, hw, hw1, hw2⟩ := hcov.mpr (by omega)
        exact ⟨w, List.mem_cons_of_mem a hw, hw1, hw2⟩

theorem chainFrom_chain :
    ∀ (l : List (Nat × Nat)) (s n : Nat), chainFrom s n l →
      List.Chain' (fun u v => u.2 = v.1) l := by
  intro l
  induction l with
  | nil =>
    intro s n h
    exact List.chain'_nil
  | cons a rest ih =>
    intro s n h
    simp only [chainFrom] at h
    obtain ⟨h1, h2, h3, h4⟩ := h
    cases rest with
    | nil => simp
    | cons b rest2 =>
      have hb : b.1 = a.2 := by
        simp only [chainFrom] at h4
        exact h4.1
      exact List.Chain'.cons hb.symm (ih a.2 n h4)

theorem chainFrom_pairwise :
    ∀ (l : List (Nat × Nat)) (s n : Nat), chainFrom s n l →
      l.Pairwise (fun u v => u.2 ≤ v.1) := by
  intro l
  induction l with
  | nil =>
    intro s n h
    exact List.Pairwise.nil
  | cons a rest ih =>
    intro s n h
    simp only [chainFrom] at h
    obtain ⟨h1, h2, h3, h4⟩ := h
    refine List.Pairwise.cons ?_ (ih a.2 n h4)
    intro w hw
    exact (chainFrom_mem_bounds rest a.2 n h4 w hw).1

theorem chainFrom_last :
    ∀ (l : List (Nat × Nat)) (s n : Nat), chainFrom s n l → s < n →
      (l.getLast?).map Prod.snd = some n := by
  intro l
  induction l with
  | nil =>
    intro s n h hs
    simp only [chainFrom] at h
    omega
  | cons a rest ih =>
    intro s n h hs
    simp only [chainFrom] at h
    obtain ⟨h1, h2, h3, h4⟩ := h
    cases rest with
    | nil =>
      simp only [chainFrom] at h4
      have ha : a.2 = n := by omega
      simp [List.getLast?, ha]
    | cons b rest2 =>
      have hb : a.2 < n := by
        simp only [chainFrom] at h4
        omega
      rw [List.getLast?_cons_cons]
      exact ih a.2 n h4 hb

theorem chainFrom_head :
    ∀ (l : List (Nat × Nat)) (s n : Nat), chainFrom s n l → s < n →
      (l.head?).map Prod.fst = some s := by
  intro l s n h hs
  cases l with
  | nil =>
    simp only [chainFrom] at h
    omega
  | cons a rest =>
    simp only [chainFrom] at h
    simp [h.1]

/-- The window-partition properties claim C8 asserts of `[start, now)`:
first window starts at start, consecutive windows share their endpoint,
windows do not overlap, each window is nonempty of clipped one-week width,
the last window ends exactly at now, and together the windows cover exactly
the half-open interval `[start, now)`. -/
def C8Prop (start now : Nat) : Prop :=
  ((backfillRanges start now).head?.map Prod.fst = some start)
  ∧ List.Chain' (fun u v => u.2 = v.1) (backfillRanges start now)
  ∧ (backfillRanges start now).Pairwise (fun u v => u.2 ≤ v.1)
  ∧ (∀ w ∈ backfillRanges start now, w.1 < w.2 ∧ w.2 = min (w.1 + 7) now)
  ∧ ((backfillRanges start now).getLast?.map Prod.snd = some now)
  ∧ (∀ t, (∃ w, w ∈ backfillRanges start now ∧ w.1 ≤ t ∧ t < w.2)
        ↔ (start ≤ t ∧ t < now))

/-! ## The scheduler trace (C7, C10) -/

/-- One extraction the scheduler issues: target resource name, start date,
optional end date, and the fixed created_at_min lower bound. -/
structure Extraction where
  resource : String
  startDate : Nat
  endDate : Option Nat
  createdAtMin : Nat
deriving DecidableEq

/-- The per-window backfill extraction (lines 113-115):
shopify_source(start_date=start_date, end_date=end_date,
created_at_min=min_start_date).with_resources("customers"). -/
def windowExtraction (minStart : Nat) (w : Nat × Nat) : Extraction :=
  ⟨"customers", w.1, some w.2, minStart⟩

/-- The final incremental extraction (lines 125-129):
shopify_source(start_date=max_end_date,
created_at_min=min_start_date).with_resources("orders"). -/
def finalExtraction (minStart now : Nat) : Extraction :=
  ⟨"orders", now, none, minStart⟩

/-- The windows the for loop actually runs (lines 111-122): `fails w` says
whether pipeline.run raises for window w; on a failure the loop logs and
breaks, so the failing window is the last one attempted. -/
def attemptedWindows (fails : Nat × Nat → Bool) : List (Nat × Nat) → List (Nat × Nat)
  | [] => []
  | w :: rest => if fails w then [w] else w :: attemptedWindows fails rest

/-- The full ordered trace of extractions incremental_load_with_backloading
issues: the attempted backfill windows, then — unconditionally, lines
124-129 sit after the loop with no guard — the final incremental orders
extraction anchored at now. -/
def schedulerTrace (start now : Nat) (fails : Nat × Nat → Bool) : List Extraction :=
  (attemptedWindows fails (backfillRanges start now)).map (windowExtraction start)
    ++ [finalExtraction start now]

theorem attemptedWindows_stop (fails : Nat × Nat → Bool) :
    ∀ (pre : List (Nat × Nat)) (w : Nat × Nat) (post : List (Nat × Nat)),
      (∀ x ∈ pre, fails x = false) → fails w = true →
      attemptedWindows fails (pre ++ w :: post) = pre ++ [w] := by
  intro pre
  induction pre with
  | nil =>
    intro w post hpre hw
    simp [attemptedWindows, hw]
  | cons p pre2 ih =>
    intro w post hpre hw
    have hp : fails p = false := hpre p (List.mem_cons_self p pre2)
    simp [attemptedWindows, hp,
      ih w post (fun x hx => hpre x (List.mem_cons_of_mem p hx)) hw]

theorem dropLast_append_single {β : Type} (l : List β) (x : β) :
    (l ++ [x]).dropLast = l := by
  induction l with
  | nil => rfl
  | cons a rest ih =>
    cases rest with
    | nil => rfl
    | cons b rest2 => simp [List.dropLast, ih]

theorem getLast?_append_single {β : Type} (l : List β) (x : β) :
    (l ++ [x]).getLast? = some x := by
  induction l with
  | nil => rfl
  | cons a rest ih =>
    cases rest with
    | nil => rfl
    | cons b rest2 =>
      simp only [List.cons_append] at ih ⊢
      rw [List.getLast?_cons_cons]
      exact ih

/-! ## Theorems for C8, C7, C10 -/

/-- C8: for every start date strictly before now, the scheduler partitions
the half-open range into contiguous, non-overlapping, ascending one-week
windows, last window clipped at now, covering exactly the range; and in the
concrete instance start = 2025-10-01, now = 2025-10-20 (days 1 and 20) the
windows are exactly 01-08, 08-15, 15-20. -/
theorem backfill_window_coverage (start now : Nat) (h : start < now) :
    C8Prop start now
    ∧ backfillRanges 1 20 = [(1, 8), (8, 15), (15, 20)] := by
  have hc : chainFrom start now (backfillRanges start now) :=
    backfillRangesAux_chain (now - start) start now (Nat.le_refl _)
  refine ⟨⟨chainFrom_head _ start now hc h, chainFrom_chain _ start now hc,
      chainFrom_pairwise _ start now hc, ?_, chainFrom_last _ start now hc h,
      chainFrom_coverage _ start now hc⟩, by decide⟩
  intro w hw
  have hb := chainFrom_mem_bounds _ start now hc w hw
  exact ⟨hb.2.1, hb.2.2.2⟩

/-- C8, witness at the concrete dates of the claim. -/
theorem backfill_window_coverage_witness :
    1 < 20
    ∧ (C8Prop 1 20 ∧ backfillRanges 1 20 = [(1, 8), (8, 15), (15, 20)]) :=
  ⟨by decide, backfill_window_coverage 1 20 (by decide)⟩

/-- Failure oracle for the C7 counterexample: the very first backfill
window (the one starting at day 1) fails. -/
def c7Fails : Nat × Nat → Bool := fun w => w.1 == 1

/-- C7, counterexample: when window (1, 8) fails the loop stops — windows
(8, 15) and (15, 20) are never attempted — and yet the final incremental
orders extraction anchored at now is still issued, because it sits after
the loop unconditionally; the claim says it is never issued after an
aborted backfill. -/
theorem aborted_backfill_counterexample :
    backfillRanges 1 20 = [(1, 8), (8, 15), (15, 20)]
    ∧ c7Fails (1, 8) = true
    ∧ attemptedWindows c7Fails (backfillRanges 1 20) = [(1, 8)]
    ∧ schedulerTrace 1 20 c7Fails
        = [windowExtraction 1 (1, 8), finalExtraction 1 20] := by
  exact ⟨by decide, by decide, by decide, by decide⟩

/-- C7, amended: ABORTED is terminal for the backfill loop — when every
window before w succeeds and w fails, the windows after w are never
attempted — but the final incremental extraction anchored at now is issued
unconditionally, after completed and after aborted backfills alike. -/
theorem scheduler_stops_then_incremental (start now : Nat)
    (fails : Nat × Nat → Bool) (pre : List (Nat × Nat)) (w : Nat × Nat)
    (post : List (Nat × Nat))
    (hsplit : backfillRanges start now = pre ++ w :: post)
    (hpre : ∀ x ∈ pre, fails x = false) (hw : fails w = true) :
    schedulerTrace start now fails
      = (pre ++ [w]).map (windowExtraction start) ++ [finalExtraction start now] := by
  unfold schedulerTrace
  rw [hsplit, attemptedWindows_stop fails pre w post hpre hw]

/-- Failure oracle for the C7 witness: the window starting at day 8 fails. -/
def c7wFails : Nat × Nat → Bool := fun w => w.1 == 8

/-- C7, witness for the amended theorem: first window succeeds, second
fails, third is dropped, incremental still issued. -/
theorem scheduler_stops_then_incremental_witness :
    backfillRanges 1 20 = [(1, 8)] ++ (8, 15) :: [(15, 20)]
    ∧ c7wFails (8, 15) = true
    ∧ schedulerTrace 1 20 c7wFails
        = ([(1, 8)] ++ [(8, 15)]).map (windowExtraction 1)
            ++ [finalExtraction 1 20] :=
  ⟨by decide, by decide,
   scheduler_stops_then_incremental 1 20 c7wFails [(1, 8)] (8, 15) [(15, 20)]
     (by decide) (by decide) (by decide)⟩

/-- C10: in every scheduler run, every backfill-window extraction (all
trace entries but the last) targets the customers resource, the final
extraction is the incremental orders extraction anchored at now, and the
two resource names differ — the windows are never applied to the resource
that receives the incremental load. -/
theorem backfill_and_incremental_resources (start now : Nat)
    (fails : Nat × Nat → Bool) :
    (schedulerTrace start now fails).dropLast
        = (attemptedWindows fails (backfillRanges start now)).map
            (windowExtraction start)
    ∧ ((schedulerTrace start now fails).dropLast.all
        (fun e => e.resource == "customers")) = true
    ∧ (schedulerTrace start now fails).getLast? = some (finalExtraction start now)
    ∧ (finalExtraction start now).resource = "orders"
    ∧ (finalExtraction start now).resource ≠ "customers" := by
  refine ⟨dropLast_append_single _ _, ?_, getLast?_append_single _ _, rfl, ?_⟩
  · unfold schedulerTrace
    rw [dropLast_append_single]
    simp only [List.all_eq_true, List.mem_map]
    rintro e ⟨w, hw, rfl⟩
    rfl
  · rw [show (finalExtraction start now).resource = "orders" from rfl]
    decide

end Shopify
